import Mathlib

/-!
Verification of the inbound-message scheduler and reply-delivery pipeline
of `telegram_input.py` (repository robit-man/sapere_aude).

The Python code is shallowly embedded: text is `List Char` (Python `len`
counts code points, as does `List.length`), the chunking algorithm of
`_send_long_text_async` is translated operation by operation, the runner's
observable side effects become explicit effect lists, and the per-key task
table becomes an association list whose key type distinguishes the two
keying conventions the source actually uses.
-/

namespace SapereAude
/-! ## Character classes used by the chunker

`str.strip()` / regex `\s` whitespace (ASCII fragment, which is what the
bot ever feeds it), and the terminal punctuation class `[\.\?\!]` of the
sentence-splitting regex in `_send_long_text_async`. -/

def isPySpace (c : Char) : Bool :=
  c = ' ' || c = '\t' || c = '\n' || c = '\r' || c = '\x0b' || c = '\x0c'

def isTermPunct (c : Char) : Bool :=
  c = '.' || c = '?' || c = '!'

/-- The whitespace-free projection of a text: the sequence of its
non-whitespace characters in order.  Two texts with the same `nonWS` agree
up to whitespace/separator normalization. -/
def nonWS (s : List Char) : List Char :=
  s.filter (fun c => !isPySpace c)

/-- Python `str.strip()`: drop leading and trailing whitespace. -/
def pyStrip (s : List Char) : List Char :=
  ((s.dropWhile isPySpace).reverse.dropWhile isPySpace).reverse

/-! ## `text.split("\n\n")` — leftmost, non-overlapping -/

def splitParasGo : List Char → List Char → List (List Char)
  | acc, [] => [acc.reverse]
  | acc, c :: rest =>
    if c = '\n' then
      match rest with
      | c2 :: rest2 =>
        if c2 = '\n' then acc.reverse :: splitParasGo [] rest2
        else splitParasGo (c :: acc) (c2 :: rest2)
      | [] => [(c :: acc).reverse]
    else splitParasGo (c :: acc) rest

def splitParas (s : List Char) : List (List Char) :=
  splitParasGo [] s

/-! ## `re.split(r"(?<=[\.\?\!])\s+", para)`

A split point is a whitespace character whose predecessor (in the current
token) is terminal punctuation; the matched `\s+` run is consumed.  `acc`
holds the current token reversed, so the lookbehind is `acc`'s head.  The
fuel argument is called with the input length, which each step strictly
decreases below; the fuel-exhausted fallback keeps the content identity
`join (sentSplitGo fuel acc s) = acc.reverse ++ s`-modulo-whitespace valid
for every fuel. -/

def sentSplitGo : Nat → List Char → List Char → List (List Char)
  | _, acc, [] => [acc.reverse]
  | 0, acc, rest => [acc.reverse ++ rest]
  | fuel + 1, acc, c :: rest =>
    if isPySpace c && (match acc with | p :: _ => isTermPunct p | [] => false) then
      acc.reverse :: sentSplitGo fuel [] (rest.dropWhile isPySpace)
    else
      sentSplitGo fuel (c :: acc) rest

def sentSplit (s : List Char) : List (List Char) :=
  sentSplitGo s.length [] s

/-! ## `for i in range(0, len(sent), chunk_size): sent[i:i+chunk_size]` -/

def windowsGo (limit : Nat) : Nat → List Char → List (List Char)
  | _, [] => []
  | 0, s => [s]
  | fuel + 1, s => s.take limit :: windowsGo limit fuel (s.drop limit)

def windows (limit : Nat) (s : List Char) : List (List Char) :=
  windowsGo limit s.length s

/-! ## The chunking loop of `_send_long_text_async` (lines 67–92)

State is `(buffer, chunks)`; `procSent` is the inner sentence loop body,
`procPara` the paragraph loop body, `chunkSplit` the whole function
including the `if not text.strip(): return` guard and the final flush. -/

def procSent (limit : Nat) (st : List Char × List (List Char)) (sent : List Char) :
    List Char × List (List Char) :=
  let buffer := st.1
  let chunks := st.2
  if buffer.length + sent.length + 1 ≤ limit then
    (pyStrip (buffer ++ [' '] ++ sent), chunks)
  else
    let chunks := if buffer = [] then chunks else chunks ++ [buffer]
    ([], chunks ++ windows limit sent)

def procPara (limit : Nat) (st : List Char × List (List Char)) (para : List Char) :
    List Char × List (List Char) :=
  let buffer := st.1
  let chunks := st.2
  if buffer.length + para.length + 2 ≤ limit then
    (pyStrip (buffer ++ ['\n', '\n'] ++ para), chunks)
  else
    let chunks := if buffer = [] then chunks else chunks ++ [buffer]
    if para.length ≤ limit then
      (para, chunks)
    else
      (sentSplit para).foldl (procSent limit) ([], chunks)

def chunkSplit (limit : Nat) (text : List Char) : List (List Char) :=
  if pyStrip text = [] then []
  else
    let st := (splitParas text).foldl (procPara limit) ([], [])
    if st.1 = [] then st.2 else st.2 ++ [st.1]

/-! ## Content preservation (modulo whitespace) of the chunking loop -/

def chContent (st : List Char × List (List Char)) : List Char :=
  nonWS (st.2.flatten ++ st.1)

/-! ## The C6 counterexample input

Three sentences `s1 s2 s3` of lengths 3799, 11, 11 in a single paragraph.
The code packs `s1` into the buffer, then `s2` fails the fit check
(3799 + 11 + 1 > 3800), so the buffer is flushed and `s2` is emitted
through the hard-slice fallback as its own chunk even though `s2` is far
below the limit and would fit together with `s3`. -/

def exS1 : List Char := List.replicate 3798 'a' ++ ['.']

def exS2 : List Char := List.replicate 10 'b' ++ ['.']

def exS3 : List Char := List.replicate 10 'c' ++ ['.']

def exPara : List Char := exS1 ++ ' ' :: (exS2 ++ ' ' :: exS3)

/-! ## The 10000-character single-sentence boundary input -/

def bigX : List Char := List.replicate 10000 'x'

/-! ## RunnerSupervisor: the per-key task table of `telegram_input` (lines 245–246,
455–469, 606–615)

The Python dict `running` is declared with `tuple[int,int]` keys, is READ
with the tuple key `(chat_id, user_id)` (line 462 `running.get(key)`), but
is WRITTEN with the bare `chat_id` (line 615 `running[chat_id] = ...`) and
popped with the bare `chat_id` (line 607).  The key type `DKey`
distinguishes the two so the association list is a faithful model of the
one dict holding both kinds of keys. -/

inductive DKey where
  | chatOnly : Int → DKey
  | pair : Int → Int → DKey
deriving DecidableEq

def chatOf : DKey → Int
  | DKey.chatOnly c => c
  | DKey.pair c _ => c

inductive SubmitOutcome where
  | startedNow : SubmitOutcome
  | queued : SubmitOutcome
deriving DecidableEq

structure SupState where
  running : List (DKey × Nat)
  pendingQ : List (DKey × List Nat)
  active : List (Nat × DKey)
  finishedTasks : List Nat
  nextTask : Nat
deriving DecidableEq

def dictGet (m : List (DKey × Nat)) (k : DKey) : Option Nat :=
  (m.find? (fun e => decide (e.1 = k))).map (fun e => e.2)

def dictInsert (m : List (DKey × Nat)) (k : DKey) (v : Nat) : List (DKey × Nat) :=
  if (m.find? (fun e => decide (e.1 = k))).isSome then
    m.map (fun e => if e.1 = k then (k, v) else e)
  else m ++ [(k, v)]

def dictPop (m : List (DKey × Nat)) (k : DKey) : List (DKey × Nat) :=
  m.filter (fun e => decide (e.1 ≠ k))

def qFind (q : List (DKey × List Nat)) (k : DKey) : List Nat :=
  ((q.find? (fun e => decide (e.1 = k))).map (fun e => e.2)).getD []

def qSetDefault (q : List (DKey × List Nat)) (k : DKey) : List (DKey × List Nat) :=
  if (q.find? (fun e => decide (e.1 = k))).isSome then q else q ++ [(k, [])]

def qSet (q : List (DKey × List Nat)) (k : DKey) (v : List Nat) :
    List (DKey × List Nat) :=
  if (q.find? (fun e => decide (e.1 = k))).isSome then
    q.map (fun e => if e.1 = k then (k, v) else e)
  else q ++ [(k, v)]

/-- Lines 614–615: `start_runner` creates the runner task and stores it
under the bare `chat_id`. -/
def startTask (c : Int) (key : DKey) (s : SupState) : SubmitOutcome × SupState :=
  let tid := s.nextTask
  (SubmitOutcome.startedNow,
   { s with running := dictInsert s.running (DKey.chatOnly c) tid,
            active := s.active ++ [(tid, key)],
            nextTask := tid + 1 })

/-- Lines 455–469 and 620: fetch/create the per-`(chat,user)` queue, check
`running.get((chat_id, user_id))` for an unfinished task, enqueue if found,
otherwise start a runner now. -/
def submit (c u : Int) (req : Nat) (s : SupState) : SubmitOutcome × SupState :=
  let key := DKey.pair c u
  let s1 := { s with pendingQ := qSetDefault s.pendingQ key }
  match dictGet s1.running key with
  | some tid =>
    if tid ∈ s1.finishedTasks then
      startTask c key s1
    else
      (SubmitOutcome.queued,
       { s1 with pendingQ := qSet s1.pendingQ key (qFind s1.pendingQ key ++ [req]) })
  | none => startTask c key s1

/-- Lines 606–612: the runner's `finally` pops `running[chat_id]`, then pops
the head of the closure's `(chat,user)` queue and starts it, if any. -/
def completeTask (tid : Nat) (s : SupState) : SupState :=
  match s.active.find? (fun e => decide (e.1 = tid)) with
  | none => s
  | some e =>
    let key := e.2
    let s1 := { s with
      active := s.active.filter (fun x => decide (x.1 ≠ tid)),
      finishedTasks := s.finishedTasks ++ [tid],
      running := dictPop s.running (DKey.chatOnly (chatOf key)) }
    match qFind s1.pendingQ key with
    | [] => s1
    | _ :: rest =>
      let s2 := { s1 with pendingQ := qSet s1.pendingQ key rest }
      (startTask (chatOf key) key s2).2

def supInit : SupState := ⟨[], [], [], [], 0⟩

/-- The `while True: q.get_nowait()` loop of lines 488–493: pops every
element until `queue.Empty`. -/
def drainLoop : List String → List String
  | [] => []
  | _ :: rest => drainLoop rest

/-- The collection loop of lines 552–558: pops every queued ogg path,
keeping only files of non-zero size. -/
def collectOggs (size : String → Nat) : List String → List String
  | [] => []
  | p :: rest =>
    if 0 < size p then p :: collectOggs size rest else collectOggs size rest

/-- A runner execution's voice-segment pipeline: drain both queues (lines
487–493), run inference, enqueue the final answer for synthesis (line 549),
wait for the file queue to be fully consumed (line 550), then collect the
ogg queue (lines 551–558).  `synth final` is what the TTS collaborator
appended to the ogg queue for this answer. -/
def runnerOggs (size : String → Nat) (leftFile leftOgg : List String)
    (synth : String → List String) (final : String) : List String :=
  let fileQ := drainLoop leftFile
  let oggQ := drainLoop leftOgg
  collectOggs size (fileQ ++ oggQ ++ synth final)

/-! ## Inbound-event handling: `_handle` steps 6, 8 and 9 (lines 352–377,
427–448, 449–480)

Observable effects of one `_handle` invocation.  The registry/memory writes
(steps 3–5) and the private slash-command surface (step 7) are orthogonal
to every claim and are not enumerated beyond the guard that skips
inference; the handler never reaches them with the inputs used here. -/

inductive HEff where
  | sendText : Int → String → Option Nat → HEff
  | unlinkTemp : String → HEff
  | createPlaceholder : Int → Nat → HEff
  | startRunner : String → Nat → HEff
deriving DecidableEq

inductive VoiceOutcome where
  | failDownload : VoiceOutcome
  | failTranscode : VoiceOutcome
  | failWhisper : VoiceOutcome
  | ok : String → VoiceOutcome
deriving DecidableEq

structure InMsg where
  text : Option String
  voice : Bool
  messageId : Nat
deriving DecidableEq

def errVoiceNotice : String := "Voice note error"

def pyStripStr (s : String) : String := String.mk (pyStrip s.data)

/-- Which of the two temp paths exist when the `finally` of lines 372–376
runs: `raw_ogg` is only a name until the download writes it; `wav` exists
only after the ffmpeg conversion succeeded. -/
def voiceFilesCreated (rawP wavP : String) : VoiceOutcome → List String
  | VoiceOutcome.failDownload => []
  | VoiceOutcome.failTranscode => [rawP]
  | VoiceOutcome.failWhisper => [rawP, wavP]
  | VoiceOutcome.ok _ => [rawP, wavP]

/-- Step 6 (lines 352–377): extract or transcribe the text.  On a voice note
with no text, a transcription failure sends the error reply and leaves
`text` empty; the `finally` unlinks every temp file that exists.  Returns
the resulting `text` and the effects, in order. -/
def acquireText (chatId : Int) (rawP wavP : String) (vo : VoiceOutcome) (m : InMsg) :
    String × List HEff :=
  let t0 := pyStripStr (m.text.getD "")
  if m.voice ∧ t0 = "" then
    let cleanup := (voiceFilesCreated rawP wavP vo).map HEff.unlinkTemp
    match vo with
    | VoiceOutcome.ok tr =>
      (if pyStripStr tr = "" then t0 else pyStripStr tr, cleanup)
    | _ => (t0, HEff.sendText chatId errVoiceNotice (some m.messageId) :: cleanup)
  else (t0, [])

/-- Steps 6–9 of `_handle` (the slash-command bodies of step 7 are elided;
the guard is kept).  `wantsReply`, `mentioned` and `replyToBot` stand for
the environment-dependent disjuncts of `do_infer` (lines 435–446); the
`filter_callback` is only consulted when `text` is non-empty (line 429). -/
def handleMessage (chatId : Int) (isPrivate : Bool) (rawP wavP : String)
    (vo : VoiceOutcome) (wantsReply mentioned replyToBot : Bool) (sender : String)
    (m : InMsg) : List HEff :=
  let r := acquireText chatId rawP wavP vo m
  let text := r.1
  let effs := r.2
  if isPrivate ∧ text.startsWith "/" then effs
  else
    let wants := if text = "" then false else wantsReply
    let doInfer := isPrivate || m.voice || wants || mentioned || replyToBot
    if doInfer then
      effs ++ [HEff.createPlaceholder chatId m.messageId,
               HEff.startRunner (sender ++ ": " ++ text) m.messageId]
    else effs

/-! ## Runner delivery phase: the body of `runner()` after `final` is
produced (lines 503–604), plus `_send_long_text_async` (lines 59–106)

`pinFail` means a `pin_chat_message` call raises; `encodeFail` means the
ffmpeg concat subprocess raises (`check=True`).  In `_send_long_text_async`
the pin/unpin pair is wrapped in `try/except` (swallowed, loop continues);
in the small-reply branch of `runner` it is not, so the exception reaches
the runner's `except Exception` handler, which sends the "❌ Error" notice
(`errNotice`) and ends delivery. -/

inductive REff where
  | deleteMsg : Nat → REff
  | editMsg : Nat → List Char → REff
  | sendChunkMsg : List Char → Nat → REff
  | pinMsg : Nat → REff
  | unpinMsg : Nat → REff
  | sleepSec : REff
  | sendVoice : String → Nat → REff
  | runFfmpeg : List String → REff
  | errNotice : Nat → REff
  | unlinkFile : String → REff
deriving DecidableEq

def REff.isUnlink : REff → Bool
  | REff.unlinkFile _ => true
  | _ => false

/-- One chunk transmission of `_send_long_text_async` (lines 94–106): send,
pin, unpin; a pin failure skips the unpin and is swallowed. -/
def chunkEffs (pinFail : Bool) (i : Nat) (ch : List Char) (replyTo : Nat) : List REff :=
  REff.sendChunkMsg ch replyTo :: REff.pinMsg i ::
    (if pinFail then [] else [REff.unpinMsg i])

def sendLongText (pinFail : Bool) (text : List Char) (replyTo : Nat) : List REff :=
  if pyStrip text = [] then []
  else ((chunkSplit 3800 text).enum.map
    (fun p => chunkEffs pinFail p.1 p.2 replyTo)).flatten

/-- Python `"".join(f"[·:a]" for i in range(n))` of line 574, indices in
ascending order. -/
def concatStreams : Nat → String
  | 0 => ""
  | n + 1 => concatStreams n ++ "[" ++ toString n ++ ":a]"

/-- The exact ffmpeg invocation of lines 573–581: `-i` inputs in queue
order, a concat filter over all of them, resampled to the fixed 48000 Hz
rate, encoded with libopus. -/
def ffmpegArgs (oggs : List String) (outFile : String) : List String :=
  ["ffmpeg", "-y", "-loglevel", "error"] ++
    (oggs.map (fun p => ["-i", p])).flatten ++
    ["-filter_complex",
      concatStreams oggs.length ++ "concat=n=" ++ toString oggs.length ++
        ":v=0:a=1,aresample=48000",
      "-c:a", "libopus", "-b:a", "48k", outFile]

/-- The voice-reply tail of the runner (lines 560–587): no segment → no
voice message; one segment → sent unchanged; several → one ffmpeg concat
run then one voice message with the combined clip, unless the encode step
raised, in which case the runner's error handler sends the error notice
instead. -/
def voicePart (encodeFail : Bool) (oggs : List String) (replyTo : Nat)
    (combined : String) : List REff :=
  match oggs with
  | [] => []
  | [a] => [REff.sendVoice a replyTo]
  | _ => REff.runFfmpeg (ffmpegArgs oggs combined) ::
      (if encodeFail then [REff.errNotice replyTo]
       else [REff.sendVoice combined replyTo])

def runnerDeliver (pinFail encodeFail : Bool) (pid rid : Nat) (final : List Char)
    (oggs : List String) (combined : String) : List REff :=
  if pyStrip final = [] then [REff.deleteMsg pid]
  else if final.length < 4000 then
    if pinFail then
      [REff.editMsg pid final, REff.pinMsg pid, REff.errNotice rid]
    else
      [REff.editMsg pid final, REff.pinMsg pid, REff.sleepSec, REff.unpinMsg pid] ++
        voicePart encodeFail oggs rid combined
  else
    REff.deleteMsg pid ::
      (sendLongText pinFail final rid ++ voicePart encodeFail oggs rid combined)

/-! ## StatusReporter: the closure state of `_make_status_cb` (lines 127–193)

State of one reporter: the event log `history`, the monotonic-clock instant
of the last flush, the absolute fire time of the pending deferred flush (if
any), the `disabled` flag, and the list of UI edit attempts performed so
far (each recording the rendered last-10 lines).  `recordStatus` is
`status_cb` (append + `_schedule_edit`), `doEdit` is `_do_edit` run at
instant `t`, `fireTimer` is the deferred `call_later` callback firing,
`stopStatus` is `stop_cb`.  Time is the event loop's monotonic clock in
whole units with `min_interval = 5`; Python's
`max(min_interval - (now - last), 0.0)` is ℕ truncated subtraction. -/

structure RepState where
  history : List String
  lastEditAt : Nat
  pendingFire : Option Nat
  disabled : Bool
  edits : List (List String)
deriving DecidableEq

def lastN (n : Nat) (l : List String) : List String := (l.reverse.take n).reverse

def truncSnippet (out : String) : String :=
  let flat := out.data.map (fun c => if c = '
' then ' ' else c)
  if 1000 < flat.length then String.mk (flat.take 997) ++ "…" else String.mk flat

def statusLine (stage out : String) : String :=
  "• *" ++ stage ++ "*: " ++ truncSnippet out

def doEdit (t : Nat) (s : RepState) : RepState :=
  if s.disabled then s
  else { s with edits := s.edits ++ [lastN 10 s.history],
                lastEditAt := t, pendingFire := none }

def scheduleEdit (minI t : Nat) (s : RepState) : RepState :=
  if s.disabled || s.pendingFire.isSome then s
  else if minI - (t - s.lastEditAt) = 0 then doEdit t s
  else { s with pendingFire := some (t + (minI - (t - s.lastEditAt))) }

def recordStatus (minI t : Nat) (stage out : String) (s : RepState) : RepState :=
  if s.disabled then s
  else scheduleEdit minI t { s with history := s.history ++ [statusLine stage out] }

def fireTimer (s : RepState) : RepState :=
  match s.pendingFire with
  | none => s
  | some tf => doEdit tf s

def stopStatus (s : RepState) : RepState :=
  { s with disabled := true, pendingFire := none }

def recordMany (minI : Nat) (evs : List (Nat × String × String)) (s : RepState) :
    RepState :=
  evs.foldl (fun st ev => recordStatus minI ev.1 ev.2.1 ev.2.2 st) s

/-! ## Whitespace-projection lemmas -/

@[simp] theorem nonWS_nil : nonWS [] = [] := rfl

theorem nonWS_cons (c : Char) (s : List Char) :
    nonWS (c :: s) = if isPySpace c then nonWS s else c :: nonWS s := by
  by_cases h : isPySpace c <;> simp [nonWS, List.filter_cons, h]

theorem nonWS_append (a b : List Char) : nonWS (a ++ b) = nonWS a ++ nonWS b := by
  simp [nonWS, List.filter_append]

theorem nonWS_reverse (s : List Char) : nonWS s.reverse = (nonWS s).reverse := by
  simp [nonWS, List.filter_reverse]

theorem nonWS_dropWhile (s : List Char) : nonWS (s.dropWhile isPySpace) = nonWS s := by
  induction s with
  | nil => rfl
  | cons c rest ih =>
    by_cases h : isPySpace c
    · rw [List.dropWhile_cons, if_pos h, ih, nonWS_cons, if_pos h]
    · rw [List.dropWhile_cons, if_neg h]

theorem dropWhile_length_le (p : Char → Bool) (s : List Char) :
    (s.dropWhile p).length ≤ s.length := by
  induction s with
  | nil => simp
  | cons c rest ih =>
    by_cases h : p c
    · simp only [List.dropWhile_cons, h, if_true]
      exact Nat.le_succ_of_le ih
    · simp [List.dropWhile_cons, h]

theorem nonWS_pyStrip (s : List Char) : nonWS (pyStrip s) = nonWS s := by
  unfold pyStrip
  rw [nonWS_reverse, nonWS_dropWhile, nonWS_reverse, List.reverse_reverse,
    nonWS_dropWhile]

theorem pyStrip_length_le (s : List Char) : (pyStrip s).length ≤ s.length := by
  unfold pyStrip
  calc ((s.dropWhile isPySpace).reverse.dropWhile isPySpace).reverse.length
      = ((s.dropWhile isPySpace).reverse.dropWhile isPySpace).length := by
        simp
    _ ≤ (s.dropWhile isPySpace).reverse.length := dropWhile_length_le _ _
    _ = (s.dropWhile isPySpace).length := by simp
    _ ≤ s.length := dropWhile_length_le _ _

theorem nonWS_eq_nil_iff (s : List Char) : nonWS s = [] ↔ ∀ c ∈ s, isPySpace c := by
  simp [nonWS, List.filter_eq_nil_iff]

theorem pyStrip_eq_nil_iff (s : List Char) : pyStrip s = [] ↔ nonWS s = [] := by
  constructor
  · intro h
    have := nonWS_pyStrip s
    rw [h] at this
    exact this.symm
  · intro h
    have hall : ∀ c ∈ s, isPySpace c := (nonWS_eq_nil_iff s).1 h
    have h1 : s.dropWhile isPySpace = [] := List.dropWhile_eq_nil_iff.2 hall
    simp [pyStrip, h1]

/-! ## Step equations for the three splitters -/

theorem splitParasGo_nil (acc : List Char) : splitParasGo acc [] = [acc.reverse] := rfl

theorem splitParasGo_nl_nl (acc rest2 : List Char) :
    splitParasGo acc ('\n' :: '\n' :: rest2) = acc.reverse :: splitParasGo [] rest2 := by
  rw [splitParasGo.eq_def]
  simp

theorem splitParasGo_nl_other (acc : List Char) (c2 : Char) (rest2 : List Char)
    (h : c2 ≠ '\n') :
    splitParasGo acc ('\n' :: c2 :: rest2) = splitParasGo ('\n' :: acc) (c2 :: rest2) := by
  rw [splitParasGo.eq_def]
  simp [h]

theorem splitParasGo_nl_last (acc : List Char) :
    splitParasGo acc ['\n'] = [('\n' :: acc).reverse] := by
  rw [splitParasGo.eq_def]
  simp

theorem splitParasGo_other (acc : List Char) (c : Char) (rest : List Char) (h : c ≠ '\n') :
    splitParasGo acc (c :: rest) = splitParasGo (c :: acc) rest := by
  rw [splitParasGo.eq_def]
  cases rest <;> simp [h]

theorem sentSplitGo_nil (fuel : Nat) (acc : List Char) :
    sentSplitGo fuel acc [] = [acc.reverse] := by
  cases fuel <;> rfl

theorem sentSplitGo_zero (acc : List Char) (c : Char) (rest : List Char) :
    sentSplitGo 0 acc (c :: rest) = [acc.reverse ++ c :: rest] := rfl

theorem sentSplitGo_succ (fuel : Nat) (acc : List Char) (c : Char) (rest : List Char) :
    sentSplitGo (fuel + 1) acc (c :: rest) =
      if isPySpace c && (match acc with | p :: _ => isTermPunct p | [] => false) then
        acc.reverse :: sentSplitGo fuel [] (rest.dropWhile isPySpace)
      else
        sentSplitGo fuel (c :: acc) rest := rfl

theorem windowsGo_nil (limit fuel : Nat) : windowsGo limit fuel [] = [] := by
  cases fuel <;> rfl

theorem windowsGo_zero (limit : Nat) (c : Char) (rest : List Char) :
    windowsGo limit 0 (c :: rest) = [c :: rest] := rfl

theorem windowsGo_succ (limit fuel : Nat) (c : Char) (rest : List Char) :
    windowsGo limit (fuel + 1) (c :: rest) =
      (c :: rest).take limit :: windowsGo limit fuel ((c :: rest).drop limit) := rfl

/-! ## Reconstruction lemmas for the three splitters -/

theorem nonWS_flatten_splitParasGo (acc s : List Char) :
    nonWS (splitParasGo acc s).flatten = nonWS acc.reverse ++ nonWS s := by
  induction acc, s using splitParasGo.induct with
  | case1 acc => simp [splitParasGo_nil]
  | case2 acc rest2 ih =>
    rw [splitParasGo_nl_nl]
    simp only [List.flatten_cons, nonWS_append, ih]
    rw [nonWS_cons, nonWS_cons]
    simp [show isPySpace '\n' = true from rfl]
  | case3 acc c2 rest2 hne ih =>
    rw [splitParasGo_nl_other acc c2 rest2 hne, ih]
    rw [List.reverse_cons, nonWS_append]
    simp [nonWS_cons, show isPySpace '\n' = true from rfl]
  | case4 acc =>
    rw [splitParasGo_nl_last]
    simp [List.reverse_cons, nonWS_append, nonWS_cons,
      show isPySpace '\n' = true from rfl]
  | case5 acc c rest hne ih =>
    rw [splitParasGo_other acc c rest hne, ih, List.reverse_cons, nonWS_append]
    rw [nonWS_cons, nonWS_cons]
    by_cases h : isPySpace c <;> simp [h]

theorem nonWS_flatten_splitParas (s : List Char) :
    nonWS (splitParas s).flatten = nonWS s := by
  simpa using nonWS_flatten_splitParasGo [] s

theorem splitParasGo_no_newline (acc s : List Char) (h : '\n' ∉ s) :
    splitParasGo acc s = [acc.reverse ++ s] := by
  induction s generalizing acc with
  | nil => simp [splitParasGo_nil]
  | cons c rest ih =>
    have hc : c ≠ '\n' := fun hc => h (hc ▸ List.mem_cons_self c rest)
    have hrest : '\n' ∉ rest := fun hr => h (List.mem_cons_of_mem c hr)
    rw [splitParasGo_other acc c rest hc, ih (c :: acc) hrest]
    simp

theorem splitParas_no_newline (s : List Char) (h : '\n' ∉ s) :
    splitParas s = [s] := by
  simp [splitParas, splitParasGo_no_newline [] s h]

theorem nonWS_flatten_sentSplitGo (fuel : Nat) (acc s : List Char) :
    nonWS (sentSplitGo fuel acc s).flatten = nonWS acc.reverse ++ nonWS s := by
  induction fuel generalizing acc s with
  | zero =>
    cases s with
    | nil => simp [sentSplitGo_nil]
    | cons c rest => simp [sentSplitGo_zero, nonWS_append]
  | succ fuel ih =>
    cases s with
    | nil => simp [sentSplitGo_nil]
    | cons c rest =>
      rw [sentSplitGo_succ]
      by_cases hcond :
          (isPySpace c && (match acc with | p :: _ => isTermPunct p | [] => false)) = true
      · have hws : isPySpace c = true := (Bool.and_eq_true _ _ |>.mp hcond).1
        rw [if_pos hcond]
        simp only [List.flatten_cons, nonWS_append, ih]
        rw [nonWS_dropWhile, nonWS_cons]
        simp [hws]
      · rw [if_neg hcond, ih, List.reverse_cons, nonWS_append]
        rw [nonWS_cons, nonWS_cons]
        by_cases h : isPySpace c <;> simp [h]

theorem nonWS_flatten_sentSplit (s : List Char) :
    nonWS (sentSplit s).flatten = nonWS s := by
  simpa using nonWS_flatten_sentSplitGo s.length [] s

/-! ## Window lemmas -/

theorem flatten_windowsGo (limit fuel : Nat) (s : List Char) :
    (windowsGo limit fuel s).flatten = s := by
  induction fuel generalizing s with
  | zero => cases s <;> simp [windowsGo_nil, windowsGo_zero]
  | succ fuel ih =>
    cases s with
    | nil => simp [windowsGo_nil]
    | cons c rest =>
      rw [windowsGo_succ]
      simp [ih, List.take_append_drop]

theorem flatten_windows (limit : Nat) (s : List Char) :
    (windows limit s).flatten = s :=
  flatten_windowsGo limit s.length s

theorem windowsGo_bounds (limit : Nat) (hl : 0 < limit) (fuel : Nat) (s : List Char)
    (hs : s.length ≤ fuel) : ∀ c ∈ windowsGo limit fuel s, c ≠ [] ∧ c.length ≤ limit := by
  induction fuel generalizing s with
  | zero =>
    have : s = [] := List.length_eq_zero.mp (Nat.le_zero.mp hs)
    subst this
    simp [windowsGo_nil]
  | succ fuel ih =>
    cases s with
    | nil => simp [windowsGo_nil]
    | cons c rest =>
      rw [windowsGo_succ]
      intro w hw
      rcases List.mem_cons.mp hw with h | h
      · subst h
        refine ⟨?_, ?_⟩
        · simp [List.take_eq_nil_iff, Nat.pos_iff_ne_zero.mp hl]
        · simp [List.length_take]
      · have hdrop : ((c :: rest).drop limit).length ≤ fuel := by
          simp only [List.length_drop, List.length_cons]
          simp only [List.length_cons] at hs
          omega
        exact ih _ hdrop w h

theorem windows_bounds (limit : Nat) (hl : 0 < limit) (s : List Char) :
    ∀ c ∈ windows limit s, c ≠ [] ∧ c.length ≤ limit :=
  windowsGo_bounds limit hl s.length s (Nat.le_refl _)

/-! ## Chunk-size / non-emptiness invariant of the chunking loop -/

theorem procSent_bounds (limit : Nat) (hl : 0 < limit) (st : List Char × List (List Char))
    (sent : List Char) (h1 : st.1.length ≤ limit) (h2 : ∀ c ∈ st.2, c ≠ [] ∧ c.length ≤ limit) :
    (procSent limit st sent).1.length ≤ limit ∧
      ∀ c ∈ (procSent limit st sent).2, c ≠ [] ∧ c.length ≤ limit := by
  unfold procSent
  by_cases hfit : st.1.length + sent.length + 1 ≤ limit
  · rw [if_pos hfit]
    refine ⟨?_, h2⟩
    calc (pyStrip (st.1 ++ [' '] ++ sent)).length
        ≤ (st.1 ++ [' '] ++ sent).length := pyStrip_length_le _
      _ = st.1.length + sent.length + 1 := by simp; omega
      _ ≤ limit := hfit
  · rw [if_neg hfit]
    refine ⟨Nat.zero_le _, ?_⟩
    intro c hc
    simp only [List.mem_append] at hc
    rcases hc with hc | hc
    · by_cases hb : st.1 = []
      · rw [if_pos hb] at hc
        exact h2 c hc
      · rw [if_neg hb] at hc
        rcases List.mem_append.mp hc with hc | hc
        · exact h2 c hc
        · rw [List.mem_singleton.mp hc]
          exact ⟨hb, h1⟩
    · exact windows_bounds limit hl sent c hc

theorem foldlSent_bounds (limit : Nat) (hl : 0 < limit) (sents : List (List Char))
    (st : List Char × List (List Char)) (h1 : st.1.length ≤ limit)
    (h2 : ∀ c ∈ st.2, c ≠ [] ∧ c.length ≤ limit) :
    (sents.foldl (procSent limit) st).1.length ≤ limit ∧
      ∀ c ∈ (sents.foldl (procSent limit) st).2, c ≠ [] ∧ c.length ≤ limit := by
  induction sents generalizing st with
  | nil => exact ⟨h1, h2⟩
  | cons sent rest ih =>
    rw [List.foldl_cons]
    have h := procSent_bounds limit hl st sent h1 h2
    exact ih _ h.1 h.2

theorem procPara_bounds (limit : Nat) (hl : 0 < limit) (st : List Char × List (List Char))
    (para : List Char) (h1 : st.1.length ≤ limit)
    (h2 : ∀ c ∈ st.2, c ≠ [] ∧ c.length ≤ limit) :
    (procPara limit st para).1.length ≤ limit ∧
      ∀ c ∈ (procPara limit st para).2, c ≠ [] ∧ c.length ≤ limit := by
  unfold procPara
  by_cases hfit : st.1.length + para.length + 2 ≤ limit
  · rw [if_pos hfit]
    refine ⟨?_, h2⟩
    calc (pyStrip (st.1 ++ ['\n', '\n'] ++ para)).length
        ≤ (st.1 ++ ['\n', '\n'] ++ para).length := pyStrip_length_le _
      _ = st.1.length + para.length + 2 := by simp; omega
      _ ≤ limit := hfit
  · rw [if_neg hfit]
    have hflush : ∀ c ∈ (if st.1 = [] then st.2 else st.2 ++ [st.1]),
        c ≠ [] ∧ c.length ≤ limit := by
      intro c hc
      by_cases hb : st.1 = []
      · rw [if_pos hb] at hc
        exact h2 c hc
      · rw [if_neg hb] at hc
        rcases List.mem_append.mp hc with hc | hc
        · exact h2 c hc
        · rw [List.mem_singleton.mp hc]
          exact ⟨hb, h1⟩
    by_cases hpl : para.length ≤ limit
    · rw [if_pos hpl]
      exact ⟨hpl, hflush⟩
    · rw [if_neg hpl]
      exact foldlSent_bounds limit hl _ _ (Nat.zero_le _) hflush

theorem foldlPara_bounds (limit : Nat) (hl : 0 < limit) (paras : List (List Char))
    (st : List Char × List (List Char)) (h1 : st.1.length ≤ limit)
    (h2 : ∀ c ∈ st.2, c ≠ [] ∧ c.length ≤ limit) :
    (paras.foldl (procPara limit) st).1.length ≤ limit ∧
      ∀ c ∈ (paras.foldl (procPara limit) st).2, c ≠ [] ∧ c.length ≤ limit := by
  induction paras generalizing st with
  | nil => exact ⟨h1, h2⟩
  | cons para rest ih =>
    rw [List.foldl_cons]
    have h := procPara_bounds limit hl st para h1 h2
    exact ih _ h.1 h.2

theorem chunkSplit_bounds (limit : Nat) (hl : 0 < limit) (text : List Char) :
    ∀ c ∈ chunkSplit limit text, c ≠ [] ∧ c.length ≤ limit := by
  unfold chunkSplit
  by_cases h : pyStrip text = []
  · simp [h]
  · rw [if_neg h]
    have hfold := foldlPara_bounds limit hl (splitParas text) ([], [])
      (Nat.zero_le _) (by simp)
    set st := (splitParas text).foldl (procPara limit) ([], []) with hst
    intro c hc
    by_cases hb : st.1 = []
    · rw [if_pos hb] at hc
      exact hfold.2 c hc
    · rw [if_neg hb] at hc
      rcases List.mem_append.mp hc with hc | hc
      · exact hfold.2 c hc
      · rw [List.mem_singleton.mp hc]
        exact ⟨hb, hfold.1⟩

theorem chContent_eq (st : List Char × List (List Char)) :
    chContent st = nonWS st.2.flatten ++ nonWS st.1 := by
  simp [chContent, nonWS_append]

theorem procSent_content (limit : Nat) (st : List Char × List (List Char))
    (sent : List Char) :
    chContent (procSent limit st sent) = chContent st ++ nonWS sent := by
  unfold procSent
  by_cases hfit : st.1.length + sent.length + 1 ≤ limit
  · rw [if_pos hfit]
    rw [chContent_eq, chContent_eq]
    simp only [nonWS_pyStrip, nonWS_append]
    have hsp : nonWS [' '] = [] := rfl
    rw [hsp]
    simp [List.append_assoc]
  · rw [if_neg hfit]
    rw [chContent_eq, chContent_eq]
    simp only [List.flatten_append, nonWS_append, flatten_windows]
    by_cases hb : st.1 = []
    · rw [if_pos hb, hb]
      simp
    · rw [if_neg hb]
      simp [List.flatten_append, nonWS_append]

theorem foldlSent_content (limit : Nat) (sents : List (List Char))
    (st : List Char × List (List Char)) :
    chContent (sents.foldl (procSent limit) st) = chContent st ++ nonWS sents.flatten := by
  induction sents generalizing st with
  | nil => simp
  | cons sent rest ih =>
    rw [List.foldl_cons, ih, procSent_content]
    simp [nonWS_append, List.append_assoc]

theorem procPara_content (limit : Nat) (st : List Char × List (List Char))
    (para : List Char) :
    chContent (procPara limit st para) = chContent st ++ nonWS para := by
  unfold procPara
  by_cases hfit : st.1.length + para.length + 2 ≤ limit
  · rw [if_pos hfit]
    rw [chContent_eq, chContent_eq]
    simp only [nonWS_pyStrip, nonWS_append]
    have hnn : nonWS ['\n', '\n'] = [] := rfl
    rw [hnn]
    simp [List.append_assoc]
  · rw [if_neg hfit]
    have hflush : nonWS (if st.1 = [] then st.2 else st.2 ++ [st.1]).flatten =
        chContent st := by
      by_cases hb : st.1 = []
      · rw [if_pos hb, chContent_eq, hb]
        simp
      · rw [if_neg hb, chContent_eq]
        simp [List.flatten_append, nonWS_append]
    by_cases hpl : para.length ≤ limit
    · rw [if_pos hpl, chContent_eq]
      rw [hflush]
    · rw [if_neg hpl, foldlSent_content, chContent_eq]
      simp only [nonWS_nil, List.append_nil, hflush, nonWS_flatten_sentSplit]

theorem foldlPara_content (limit : Nat) (paras : List (List Char))
    (st : List Char × List (List Char)) :
    chContent (paras.foldl (procPara limit) st) = chContent st ++ nonWS paras.flatten := by
  induction paras generalizing st with
  | nil => simp
  | cons para rest ih =>
    rw [List.foldl_cons, ih, procPara_content]
    simp [nonWS_append, List.append_assoc]

theorem chunkSplit_content (limit : Nat) (text : List Char) :
    nonWS (chunkSplit limit text).flatten = nonWS text := by
  unfold chunkSplit
  by_cases h : pyStrip text = []
  · rw [if_pos h]
    simp only [List.flatten_nil, nonWS_nil]
    exact ((pyStrip_eq_nil_iff text).1 h).symm
  · rw [if_neg h]
    have hc := foldlPara_content limit (splitParas text) ([], [])
    rw [nonWS_flatten_splitParas] at hc
    simp only [chContent, List.flatten_nil, List.nil_append, nonWS_nil] at hc
    set st := (splitParas text).foldl (procPara limit) ([], []) with hst
    by_cases hb : st.1 = []
    · rw [if_pos hb]
      have := hc
      rw [hb] at this
      simpa [chContent] using this
    · rw [if_neg hb]
      have : nonWS (st.2 ++ [st.1]).flatten = chContent st := by
        simp [chContent, List.flatten_append]
      rw [this]
      exact hc

theorem chunkSplit_eq_nil_iff (limit : Nat) (text : List Char) :
    chunkSplit limit text = [] ↔ nonWS text = [] := by
  constructor
  · intro h
    have := chunkSplit_content limit text
    rw [h] at this
    simpa using this.symm
  · intro h
    have hp : pyStrip text = [] := (pyStrip_eq_nil_iff text).2 h
    simp [chunkSplit, hp]

/-! ## Pointwise evaluation helpers for concrete chunker runs -/

theorem pyStrip_cons_of_space (c : Char) (s : List Char) (h : isPySpace c = true) :
    pyStrip (c :: s) = pyStrip s := by
  unfold pyStrip
  rw [List.dropWhile_cons, if_pos h]

theorem dropWhile_cons_false (c : Char) (s : List Char) (h : isPySpace c = false) :
    (c :: s).dropWhile isPySpace = c :: s := by
  rw [List.dropWhile_cons]
  simp [h]

theorem pyStrip_clean (a b : Char) (xs : List Char) (ha : isPySpace a = false)
    (hb : isPySpace b = false) : pyStrip (a :: (xs ++ [b])) = a :: (xs ++ [b]) := by
  unfold pyStrip
  rw [List.dropWhile_cons]
  rw [if_neg (by simp [ha])]
  have h1 : (a :: (xs ++ [b])).reverse = b :: (xs.reverse ++ [a]) := by
    simp
  rw [h1, List.dropWhile_cons, if_neg (by simp [hb])]
  simp

theorem pyStrip_shape (ch p : Char) (n : Nat) (h : isPySpace ch = false)
    (hp : isPySpace p = false) :
    pyStrip (List.replicate (n + 1) ch ++ [p]) = List.replicate (n + 1) ch ++ [p] := by
  rw [List.replicate_succ, List.cons_append]
  exact pyStrip_clean ch p _ h hp

theorem dropWhile_noop_shape (ch p : Char) (n : Nat) (rest : List Char)
    (h : isPySpace ch = false) (hp : isPySpace p = false) :
    ((List.replicate n ch ++ [p]) ++ rest).dropWhile isPySpace =
      (List.replicate n ch ++ [p]) ++ rest := by
  cases n with
  | zero =>
    simp only [List.replicate_zero, List.nil_append, List.cons_append]
    exact dropWhile_cons_false p rest hp
  | succ m =>
    rw [List.replicate_succ]
    simp only [List.cons_append]
    exact dropWhile_cons_false _ _ h

theorem noWS_shape (ch p : Char) (n : Nat) (h1 : isPySpace ch = false)
    (h2 : isPySpace p = false) :
    ∀ c ∈ List.replicate n ch ++ [p], isPySpace c = false := by
  intro c hc
  rcases List.mem_append.mp hc with hc | hc
  · rw [(List.mem_replicate.mp hc).2]
    exact h1
  · rw [List.mem_singleton.mp hc]
    exact h2

theorem sentSplitGo_skip_block : ∀ (B : List Char), (∀ c ∈ B, isPySpace c = false) →
    ∀ (fuel : Nat) (acc rest : List Char),
      sentSplitGo (B.length + fuel) acc (B ++ rest) =
        sentSplitGo fuel (B.reverse ++ acc) rest := by
  intro B
  induction B with
  | nil => intro _ fuel acc rest; simp
  | cons c B' ih =>
    intro hB fuel acc rest
    have hc : isPySpace c = false := hB c (List.mem_cons_self c B')
    have hB' : ∀ x ∈ B', isPySpace x = false := fun x hx => hB x (List.mem_cons_of_mem c hx)
    have hlen : (c :: B').length + fuel = (B'.length + fuel) + 1 := by
      simp only [List.length_cons]
      omega
    rw [hlen, List.cons_append, sentSplitGo_succ]
    rw [if_neg (by simp [hc])]
    rw [ih hB' fuel (c :: acc) rest]
    simp [List.append_assoc]

theorem sentSplitGo_split (fuel : Nat) (p : Char) (acc : List Char) (c : Char)
    (rest : List Char) (hp : isTermPunct p = true) (hc : isPySpace c = true) :
    sentSplitGo (fuel + 1) (p :: acc) (c :: rest) =
      (p :: acc).reverse :: sentSplitGo fuel [] (rest.dropWhile isPySpace) := by
  rw [sentSplitGo_succ]
  rw [if_pos (by simp [hp, hc])]

theorem sentSplitGo_all_block (B : List Char) (hB : ∀ c ∈ B, isPySpace c = false) :
    sentSplitGo B.length [] B = [B] := by
  have h := sentSplitGo_skip_block B hB 0 [] []
  rw [List.append_nil, List.append_nil] at h
  rw [show B.length = B.length + 0 from rfl, h, sentSplitGo_nil, List.reverse_reverse]

theorem exS1_length : exS1.length = 3799 := by
  simp only [exS1, List.length_append, List.length_replicate, List.length_cons,
    List.length_nil]

theorem exS2_length : exS2.length = 11 := by
  simp only [exS2, List.length_append, List.length_replicate, List.length_cons,
    List.length_nil]

theorem exS3_length : exS3.length = 11 := by
  simp only [exS3, List.length_append, List.length_replicate, List.length_cons,
    List.length_nil]

theorem exPara_length : exPara.length = 3823 := by
  simp only [exPara, exS1, exS2, exS3, List.length_append, List.length_cons,
    List.length_replicate, List.length_nil]

theorem exS1_ne_nil : exS1 ≠ [] := by
  intro h
  have hlen := exS1_length
  rw [h] at hlen
  simp at hlen

theorem exPara_strip_ne : pyStrip exPara ≠ [] := by
  intro h
  have h2 := (pyStrip_eq_nil_iff _).1 h
  have hmem : 'a' ∈ exPara := by
    refine List.mem_append_left _ (List.mem_append_left _ ?_)
    exact List.mem_replicate.mpr ⟨by norm_num, rfl⟩
  have h3 := (nonWS_eq_nil_iff _).1 h2 'a' hmem
  exact absurd h3 (by decide)

theorem newline_not_mem_exPara : '\n' ∉ exPara := by
  intro h
  rcases List.mem_append.mp h with h | h
  · rcases List.mem_append.mp h with h | h
    · exact absurd (List.mem_replicate.mp h).2 (by decide)
    · exact absurd (List.mem_singleton.mp h) (by decide)
  · rcases List.mem_cons.mp h with h | h
    · exact absurd h (by decide)
    · rcases List.mem_append.mp h with h | h
      · rcases List.mem_append.mp h with h | h
        · exact absurd (List.mem_replicate.mp h).2 (by decide)
        · exact absurd (List.mem_singleton.mp h) (by decide)
      · rcases List.mem_cons.mp h with h | h
        · exact absurd h (by decide)
        · rcases List.mem_append.mp h with h | h
          · exact absurd (List.mem_replicate.mp h).2 (by decide)
          · exact absurd (List.mem_singleton.mp h) (by decide)

theorem sentSplit_exPara : sentSplit exPara = [exS1, exS2, exS3] := by
  have hS1ws := noWS_shape 'a' '.' 3798 (by decide) (by decide)
  have hS2ws := noWS_shape 'b' '.' 10 (by decide) (by decide)
  have hS3ws := noWS_shape 'c' '.' 10 (by decide) (by decide)
  unfold sentSplit
  rw [exPara_length]
  have h1 : (3823 : Nat) = exS1.length + 24 := by rw [exS1_length]
  rw [h1]
  show sentSplitGo (exS1.length + 24) [] (exS1 ++ (' ' :: (exS2 ++ ' ' :: exS3))) = _
  rw [sentSplitGo_skip_block exS1 hS1ws 24 [] _, List.append_nil]
  have hrev1 : exS1.reverse = '.' :: (List.replicate 3798 'a').reverse := by
    simp only [exS1, List.reverse_append, List.reverse_singleton, List.singleton_append]
  rw [hrev1]
  rw [show (24 : Nat) = 23 + 1 from rfl]
  rw [sentSplitGo_split 23 '.' _ ' ' _ (by decide) (by decide)]
  have hback1 : ('.' :: (List.replicate 3798 'a').reverse).reverse = exS1 := by
    simp only [List.reverse_cons, List.reverse_reverse, exS1]
  rw [hback1]
  rw [show exS2 ++ ' ' :: exS3 = (List.replicate 10 'b' ++ ['.']) ++ (' ' :: exS3) from rfl]
  rw [dropWhile_noop_shape 'b' '.' 10 _ (by decide) (by decide)]
  rw [show (List.replicate 10 'b' ++ ['.']) ++ (' ' :: exS3) = exS2 ++ (' ' :: exS3) from rfl]
  have h2 : (23 : Nat) = exS2.length + 12 := by rw [exS2_length]
  rw [h2]
  rw [sentSplitGo_skip_block exS2 hS2ws 12 [] _, List.append_nil]
  have hrev2 : exS2.reverse = '.' :: (List.replicate 10 'b').reverse := by
    simp only [exS2, List.reverse_append, List.reverse_singleton, List.singleton_append]
  rw [hrev2]
  rw [show (12 : Nat) = 11 + 1 from rfl]
  rw [sentSplitGo_split 11 '.' _ ' ' _ (by decide) (by decide)]
  have hback2 : ('.' :: (List.replicate 10 'b').reverse).reverse = exS2 := by
    simp only [List.reverse_cons, List.reverse_reverse, exS2]
  rw [hback2]
  have hdrop3 : exS3.dropWhile isPySpace = exS3 := by
    have h := dropWhile_noop_shape 'c' '.' 10 [] (by decide) (by decide)
    rw [List.append_nil] at h
    exact h
  rw [hdrop3]
  rw [show (11 : Nat) = exS3.length from exS3_length.symm]
  rw [sentSplitGo_all_block exS3 hS3ws]

theorem procSent_fit (limit : Nat) (buffer : List Char) (chunks : List (List Char))
    (sent : List Char) (h : buffer.length + sent.length + 1 ≤ limit) :
    procSent limit (buffer, chunks) sent = (pyStrip (buffer ++ [' '] ++ sent), chunks) := by
  simp only [procSent]
  rw [if_pos h]

theorem procSent_nofit (limit : Nat) (buffer : List Char) (chunks : List (List Char))
    (sent : List Char) (h : ¬ buffer.length + sent.length + 1 ≤ limit) :
    procSent limit (buffer, chunks) sent =
      ([], (if buffer = [] then chunks else chunks ++ [buffer]) ++ windows limit sent) := by
  simp only [procSent]
  rw [if_neg h]

theorem procPara_big (limit : Nat) (chunks : List (List Char)) (para : List Char)
    (h1 : ¬ ([] : List Char).length + para.length + 2 ≤ limit)
    (h2 : ¬ para.length ≤ limit) :
    procPara limit ([], chunks) para = (sentSplit para).foldl (procSent limit) ([], chunks) := by
  simp only [procPara]
  rw [if_neg h1, if_neg h2]
  simp

theorem exS1_strip : pyStrip exS1 = exS1 := by
  have h := pyStrip_shape 'a' '.' 3797 (by decide) (by decide)
  rw [show (3797 : Nat) + 1 = 3798 by norm_num] at h
  exact h

theorem exS3_strip : pyStrip exS3 = exS3 := by
  have h := pyStrip_shape 'c' '.' 9 (by decide) (by decide)
  rw [show (9 : Nat) + 1 = 10 by norm_num] at h
  exact h

theorem exS2_cons : exS2 = 'b' :: (List.replicate 9 'b' ++ ['.']) := by
  unfold exS2
  rw [show (10 : Nat) = 9 + 1 by norm_num, List.replicate_succ, List.cons_append]

theorem windows_exS2 : windows 3800 exS2 = [exS2] := by
  unfold windows
  rw [exS2_length, exS2_cons]
  rw [show (11 : Nat) = 10 + 1 from rfl, windowsGo_succ]
  rw [List.take_of_length_le (by rw [← exS2_cons, exS2_length]; norm_num)]
  rw [List.drop_eq_nil_of_le (by rw [← exS2_cons, exS2_length]; norm_num)]
  rw [windowsGo_nil]

theorem chunkSplit_exPara : chunkSplit 3800 exPara = [exS1, exS2, exS3] := by
  unfold chunkSplit
  rw [if_neg exPara_strip_ne]
  rw [splitParas_no_newline exPara newline_not_mem_exPara]
  rw [List.foldl_cons, List.foldl_nil]
  rw [procPara_big 3800 [] exPara
    (by rw [List.length_nil, exPara_length]; norm_num)
    (by rw [exPara_length]; norm_num)]
  rw [sentSplit_exPara]
  rw [List.foldl_cons, List.foldl_cons, List.foldl_cons, List.foldl_nil]
  rw [procSent_fit 3800 [] [] exS1 (by rw [List.length_nil, exS1_length])]
  rw [show ([] : List Char) ++ [' '] ++ exS1 = ' ' :: exS1 from rfl]
  rw [pyStrip_cons_of_space ' ' exS1 (by decide), exS1_strip]
  rw [procSent_nofit 3800 exS1 [] exS2 (by rw [exS1_length, exS2_length]; norm_num)]
  rw [if_neg exS1_ne_nil, windows_exS2]
  rw [procSent_fit 3800 [] ([] ++ [exS1] ++ [exS2]) exS3
    (by rw [List.length_nil, exS3_length]; norm_num)]
  rw [show ([] : List Char) ++ [' '] ++ exS3 = ' ' :: exS3 from rfl]
  rw [pyStrip_cons_of_space ' ' exS3 (by decide), exS3_strip]
  have hne3 : exS3 ≠ [] := by
    intro h
    have hlen := exS3_length
    rw [h] at hlen
    simp at hlen
  simp [hne3]
theorem bigX_length : bigX.length = 10000 := by
  simp only [bigX, List.length_replicate]

theorem bigX_eq : bigX = List.replicate 9999 'x' ++ ['x'] := by
  unfold bigX
  rw [show (10000 : Nat) = 9999 + 1 by norm_num, List.replicate_succ']

theorem bigX_strip : pyStrip bigX = bigX := by
  rw [bigX_eq]
  have h := pyStrip_shape 'x' 'x' 9998 (by decide) (by decide)
  rw [show (9998 : Nat) + 1 = 9999 by norm_num] at h
  exact h

theorem newline_not_mem_bigX : '\n' ∉ bigX := by
  intro h
  exact absurd (List.mem_replicate.mp h).2 (by decide)

theorem sentSplit_bigX : sentSplit bigX = [bigX] := by
  unfold sentSplit
  exact sentSplitGo_all_block bigX
    (fun c hc => by rw [(List.mem_replicate.mp hc).2]; decide)

theorem windowsGo_replicate_step (limit fuel n : Nat) (c : Char) :
    windowsGo limit (fuel + 1) (List.replicate (n + 1) c) =
      List.replicate (min limit (n + 1)) c ::
        windowsGo limit fuel (List.replicate (n + 1 - limit) c) := by
  rw [List.replicate_succ, windowsGo_succ, ← List.replicate_succ]
  rw [List.take_replicate, List.drop_replicate]

theorem windows_bigX :
    windows 3800 bigX =
      [List.replicate 3800 'x', List.replicate 3800 'x', List.replicate 2400 'x'] := by
  unfold windows
  rw [bigX_length]
  show windowsGo 3800 10000 (List.replicate 10000 'x') = _
  rw [show (10000 : Nat) = 9999 + 1 by norm_num]
  rw [windowsGo_replicate_step 3800 9999 9999 'x']
  rw [show min 3800 (9999 + 1) = 3800 by norm_num]
  rw [show (9999 : Nat) + 1 - 3800 = 6199 + 1 by norm_num]
  rw [show (9999 : Nat) = 9998 + 1 by norm_num]
  rw [windowsGo_replicate_step 3800 9998 6199 'x']
  rw [show min 3800 (6199 + 1) = 3800 by norm_num]
  rw [show (6199 : Nat) + 1 - 3800 = 2399 + 1 by norm_num]
  rw [show (9998 : Nat) = 9997 + 1 by norm_num]
  rw [windowsGo_replicate_step 3800 9997 2399 'x']
  rw [show min 3800 (2399 + 1) = 2400 by norm_num]
  rw [show (2399 : Nat) + 1 - 3800 = 0 by norm_num]
  rw [List.replicate_zero, windowsGo_nil]

theorem bigX_strip_ne : pyStrip bigX ≠ [] := by
  rw [bigX_strip]
  intro h
  have hlen := bigX_length
  rw [h] at hlen
  simp at hlen

theorem chunkSplit_bigX :
    chunkSplit 3800 bigX =
      [List.replicate 3800 'x', List.replicate 3800 'x', List.replicate 2400 'x'] := by
  unfold chunkSplit
  rw [if_neg bigX_strip_ne]
  rw [splitParas_no_newline bigX newline_not_mem_bigX]
  rw [List.foldl_cons, List.foldl_nil]
  rw [procPara_big 3800 [] bigX
    (by rw [List.length_nil, bigX_length]; norm_num)
    (by rw [bigX_length]; norm_num)]
  rw [sentSplit_bigX]
  rw [List.foldl_cons, List.foldl_nil]
  rw [procSent_nofit 3800 [] [] bigX (by rw [List.length_nil, bigX_length]; norm_num)]
  rw [if_pos rfl, windows_bigX]
  rfl

/-! ## Claim theorems for the Chunker -/

/-- C5: the chunking loop of `_send_long_text_async` is a pure function of its
input text (embedded as `chunkSplit`); with the default limit 3800 every
returned chunk is non-empty and at most 3800 characters long; the chunk list
is empty iff the input is empty or whitespace-only (`nonWS text = []`); and
the concatenation of all chunks preserves the input's non-whitespace content
in order (paragraph/sentence separators are only whitespace-normalized). -/
theorem chunker_postconditions (text : List Char) :
    (∀ c ∈ chunkSplit 3800 text, c ≠ [] ∧ c.length ≤ 3800) ∧
    nonWS (chunkSplit 3800 text).flatten = nonWS text ∧
    (chunkSplit 3800 text = [] ↔ nonWS text = []) :=
  ⟨chunkSplit_bounds 3800 (by norm_num) text, chunkSplit_content 3800 text,
    chunkSplit_eq_nil_iff 3800 text⟩

/-- Witness for C5: at the concrete input "hi", the single produced chunk
"hi" is non-empty and within the limit. -/
theorem chunker_postconditions_witness :
    "hi".toList ≠ [] ∧ "hi".toList.length ≤ 3800 :=
  (chunker_postconditions "hi".toList).1 "hi".toList (by decide)

/-- C6 counterexample: for the single over-limit paragraph `exPara`, made of
sentences `exS1` (3799 chars), `exS2` (11 chars), `exS3` (11 chars), the code
emits `exS2` as its own chunk through the hard-slice fallback although
`exS2` is far below the limit, and fails to pack the consecutive sentences
`exS2` and `exS3` into one chunk although they fit together
(11 + 11 + 1 ≤ 3800).  This falsifies both "greedily packs consecutive
sentences into chunks up to the limit" and "only a single sentence that
itself exceeds the limit is hard-sliced". -/
theorem sentence_packing_counterexample :
    chunkSplit 3800 exPara = [exS1, exS2, exS3] ∧
    sentSplit exPara = [exS1, exS2, exS3] ∧
    exS2.length + exS3.length + 1 ≤ 3800 ∧ exS2.length ≤ 3800 :=
  ⟨chunkSplit_exPara, sentSplit_exPara,
    by rw [exS2_length, exS3_length]; norm_num,
    by rw [exS2_length]; norm_num⟩

/-- C6 amended: when a single paragraph exceeds the limit it is split into
sentences at terminal-punctuation boundaries and a sentence is appended to
the running buffer only while `len(buffer) + len(sentence) + 1 ≤ limit`; a
sentence that fails this check is flushed-and-hard-sliced into fixed-size
windows of at most `limit` characters even when the sentence itself is
within the limit (it then forms its own chunk instead of being packed with
the following sentences); only an over-limit sentence is split mid-word; a
10000-character single-sentence string with no punctuation splits into
exactly `ceil(10000/3800) = 3` fixed-size chunks of 3800, 3800 and 2400
characters. -/
theorem sentence_chunking_amended :
    chunkSplit 3800 bigX =
      [List.replicate 3800 'x', List.replicate 3800 'x', List.replicate 2400 'x'] ∧
    (chunkSplit 3800 bigX).length = (10000 + 3800 - 1) / 3800 ∧
    chunkSplit 3800 exPara = [exS1, exS2, exS3] :=
  ⟨chunkSplit_bigX, by rw [chunkSplit_bigX]; norm_num, chunkSplit_exPara⟩

/-! ## TTS queue drain at runner start (lines 487–493 and 549–558) -/

theorem drainLoop_eq_nil (q : List String) : drainLoop q = [] := by
  induction q with
  | nil => rfl
  | cons p rest ih => rw [drainLoop, ih]

theorem collectOggs_eq_filter (size : String → Nat) (q : List String) :
    collectOggs size q = q.filter (fun p => decide (0 < size p)) := by
  induction q with
  | nil => rfl
  | cons p rest ih =>
    rw [collectOggs, List.filter_cons]
    by_cases h : 0 < size p
    · rw [if_pos h, ih, if_pos (by simpa using h)]
    · rw [if_neg h, ih, if_neg (by simpa using h)]

/-! ## Claim theorems for the supervisor and the TTS queues -/

/-- C1 (code bug): two requests submitted rapidly under the same
ConversationKey (chat 1, user 1) while the first is still running are BOTH
started immediately.  The running-task dict is written under the bare
`chat_id` (line 615) but the queued-branch check reads it under the tuple
`(chat_id, user_id)` (line 462), so the check never sees the running task:
no request is ever QUEUED, two unfinished tasks for the same key run
concurrently (violating the at-most-one-ActiveTask invariant), the second
insert orphans the first task's table entry, and the queue stays empty. -/
theorem supervisor_keying_bug :
    (submit 1 1 101 supInit).1 = SubmitOutcome.startedNow ∧
    (submit 1 1 102 (submit 1 1 101 supInit).2).1 = SubmitOutcome.startedNow ∧
    (submit 1 1 102 (submit 1 1 101 supInit).2).2.active =
      [(0, DKey.pair 1 1), (1, DKey.pair 1 1)] ∧
    (submit 1 1 102 (submit 1 1 101 supInit).2).2.finishedTasks = [] ∧
    qFind (submit 1 1 102 (submit 1 1 101 supInit).2).2.pendingQ (DKey.pair 1 1) = [] ∧
    (submit 1 1 102 (submit 1 1 101 supInit).2).2.running = [(DKey.chatOnly 1, 1)] := by
  decide

/-- C10: at the start of every runner execution both pending TTS queues are
fully drained before inference begins, so the collected voice segments are
exactly the (non-empty-file) segments synthesized from this task's own
final answer — the result does not depend on any leftover segments from an
earlier request in the same chat. -/
theorem tts_queue_isolation (size : String → Nat) (leftFile leftOgg : List String)
    (synth : String → List String) (final : String) :
    runnerOggs size leftFile leftOgg synth final =
      (synth final).filter (fun p => decide (0 < size p)) ∧
    runnerOggs size leftFile leftOgg synth final = runnerOggs size [] [] synth final := by
  unfold runnerOggs
  rw [drainLoop_eq_nil, drainLoop_eq_nil, collectOggs_eq_filter]
  simp [collectOggs_eq_filter, drainLoop_eq_nil]

/-! ## Support lemmas about the delivery effect lists -/

theorem errNotice_not_mem_chunkEffs (pf : Bool) (i : Nat) (ch : List Char)
    (r rid : Nat) : REff.errNotice rid ∉ chunkEffs pf i ch r := by
  unfold chunkEffs
  cases pf <;> simp

theorem errNotice_not_mem_sendLongText (pf : Bool) (text : List Char) (r rid : Nat) :
    REff.errNotice rid ∉ sendLongText pf text r := by
  unfold sendLongText
  by_cases h : pyStrip text = []
  · simp [h]
  · rw [if_neg h]
    intro hmem
    rw [List.mem_flatten] at hmem
    obtain ⟨l, hl, hm⟩ := hmem
    rw [List.mem_map] at hl
    obtain ⟨p, _, hp⟩ := hl
    rw [← hp] at hm
    exact errNotice_not_mem_chunkEffs pf p.1 p.2 r rid hm

theorem chunkEffs_no_unlink (pf : Bool) (i : Nat) (ch : List Char) (r : Nat) :
    ∀ e ∈ chunkEffs pf i ch r, e.isUnlink = false := by
  unfold chunkEffs
  cases pf <;> simp [REff.isUnlink]

theorem sendLongText_no_unlink (pf : Bool) (text : List Char) (r : Nat) :
    ∀ e ∈ sendLongText pf text r, e.isUnlink = false := by
  unfold sendLongText
  by_cases h : pyStrip text = []
  · simp [h]
  · rw [if_neg h]
    intro e hmem
    rw [List.mem_flatten] at hmem
    obtain ⟨l, hl, hm⟩ := hmem
    rw [List.mem_map] at hl
    obtain ⟨p, _, hp⟩ := hl
    rw [← hp] at hm
    exact chunkEffs_no_unlink pf p.1 p.2 r e hm

theorem voicePart_no_unlink (ef : Bool) (oggs : List String) (r : Nat) (comb : String) :
    ∀ e ∈ voicePart ef oggs r comb, e.isUnlink = false := by
  match oggs with
  | [] => simp [voicePart]
  | [a] => simp [voicePart, REff.isUnlink]
  | a :: b :: rest =>
    unfold voicePart
    cases ef <;> simp [REff.isUnlink]

theorem runnerDeliver_no_unlink (pf ef : Bool) (pid rid : Nat) (final : List Char)
    (oggs : List String) (comb : String) :
    ∀ e ∈ runnerDeliver pf ef pid rid final oggs comb, e.isUnlink = false := by
  unfold runnerDeliver
  by_cases h : pyStrip final = []
  · simp [h, REff.isUnlink]
  · rw [if_neg h]
    by_cases hs : final.length < 4000
    · rw [if_pos hs]
      cases pf with
      | true => simp [REff.isUnlink]
      | false =>
        intro e hmem
        rcases List.mem_append.mp hmem with hm | hm
        · simp only [List.mem_cons, List.not_mem_nil, or_false] at hm
          rcases hm with rfl | rfl | rfl | rfl <;> rfl
        · exact voicePart_no_unlink ef oggs rid comb e hm
    · rw [if_neg hs]
      intro e hmem
      rcases List.mem_cons.mp hmem with hm | hm
      · rw [hm]; rfl
      · rcases List.mem_append.mp hm with hm2 | hm2
        · exact sendLongText_no_unlink pf final rid e hm2
        · exact voicePart_no_unlink ef oggs rid comb e hm2

/-! ## Claim theorems for error handling and delivery -/

/-- C2 (code bug): when transcription of a voice note fails, the failure IS
reported as a reply to the triggering message, but the handler does not
stop: `text` stays empty, and since `msg.voice` is one of the `do_infer`
disjuncts (line 437), the request still advances to inference — a
placeholder is created and a runner task is started for the failed event,
with the empty user text "alice: ". -/
theorem voice_failure_still_infers :
    HEff.sendText 5 errVoiceNotice (some 42) ∈
      handleMessage 5 false "raw" "wav" VoiceOutcome.failWhisper false false false
        "alice" ⟨none, true, 42⟩ ∧
    HEff.createPlaceholder 5 42 ∈
      handleMessage 5 false "raw" "wav" VoiceOutcome.failWhisper false false false
        "alice" ⟨none, true, 42⟩ ∧
    HEff.startRunner "alice: " 42 ∈
      handleMessage 5 false "raw" "wav" VoiceOutcome.failWhisper false false false
        "alice" ⟨none, true, 42⟩ := by
  decide

/-- C3 counterexample: in the small-reply path a pin failure is NOT
swallowed: the exception escapes to the runner's `except Exception`
handler, which sends an error notice (and the voice reply is skipped).
This falsifies "after any pin/unpin exception ... no error notice is sent,
in both the small-reply path and the large-reply path". -/
theorem pin_swallow_counterexample :
    REff.errNotice 3 ∈ runnerDeliver true false 7 3 "hi".toList ["a"] "c" := by
  decide

/-- C3 amended: a pin/unpin failure is swallowed only in the per-chunk
large-reply path (`_send_long_text_async`), where delivery continues and no
error notice is sent and the voice reply is still delivered; in the
small-reply path the pin exception propagates to the runner's exception
handler, which sends an error notice, and delivery stops at that point. -/
theorem pin_failure_amended (ef : Bool) (pid rid : Nat) (final : List Char)
    (a combined : String) :
    (pyStrip final ≠ [] → 4000 ≤ final.length →
      REff.errNotice rid ∉ runnerDeliver true false pid rid final [a] combined ∧
      REff.sendVoice a rid ∈ runnerDeliver true false pid rid final [a] combined) ∧
    (pyStrip final ≠ [] → final.length < 4000 →
      runnerDeliver true ef pid rid final [a] combined =
        [REff.editMsg pid final, REff.pinMsg pid, REff.errNotice rid]) := by
  constructor
  · intro h1 h2
    unfold runnerDeliver
    rw [if_neg h1, if_neg (by omega)]
    constructor
    · intro hmem
      rcases List.mem_cons.mp hmem with hm | hm
      · exact absurd hm (by simp)
      · rcases List.mem_append.mp hm with hm2 | hm2
        · exact errNotice_not_mem_sendLongText true final rid rid hm2
        · rcases List.mem_singleton.mp hm2
    · refine List.mem_cons_of_mem _ (List.mem_append_right _ ?_)
      exact List.mem_singleton.mpr rfl
  · intro h1 h2
    unfold runnerDeliver
    rw [if_neg h1, if_pos h2, if_pos rfl]

/-- Witness for C3's amended theorem: both branches discharged at concrete
inputs (a 10000-char large reply; the 2-char small reply "hi"). -/
theorem pin_failure_amended_witness :
    (REff.errNotice 3 ∉ runnerDeliver true false 7 3 bigX ["a"] "c" ∧
      REff.sendVoice "a" 3 ∈ runnerDeliver true false 7 3 bigX ["a"] "c") ∧
    runnerDeliver true false 7 3 "hi".toList ["a"] "c" =
      [REff.editMsg 7 "hi".toList, REff.pinMsg 7, REff.errNotice 3] :=
  ⟨(pin_failure_amended false 7 3 bigX "a" "c").1 bigX_strip_ne
      (by rw [bigX_length]; norm_num),
    (pin_failure_amended false 7 3 "hi".toList "a" "c").2 (by decide) (by decide)⟩

/-- C4 counterexample: on a successful run that produced two synthesized
segments and one merged clip, the runner's effect list contains no unlink
at all — neither the segments nor the combined clip are removed on the
success exit path (nor on any other: the runner has no cleanup code). -/
theorem runner_no_cleanup_counterexample :
    (runnerDeliver false false 7 3 "hi".toList ["a", "b"] "comb").all
      (fun e => !e.isUnlink) = true := by
  decide

/-- C4 amended: the temporary voice-note input files (downloaded `.oga`,
converted `.wav`) that were actually created are removed by the
acquisition's `finally` on every exit path (success and every failure);
the synthesized voice segments and the merged combined clip are never
removed by the runner on any exit path. -/
theorem temp_audio_cleanup_amended :
    (∀ (chatId : Int) (rawP wavP : String) (vo : VoiceOutcome) (m : InMsg),
      m.voice = true → pyStripStr (m.text.getD "") = "" →
      ∀ f ∈ voiceFilesCreated rawP wavP vo,
        HEff.unlinkTemp f ∈ (acquireText chatId rawP wavP vo m).2) ∧
    (∀ (pf ef : Bool) (pid rid : Nat) (final : List Char) (oggs : List String)
      (comb : String), ∀ e ∈ runnerDeliver pf ef pid rid final oggs comb,
        e.isUnlink = false) := by
  constructor
  · intro chatId rawP wavP vo m hv ht f hf
    unfold acquireText
    rw [if_pos ⟨hv, ht⟩]
    cases vo with
    | ok tr =>
      show HEff.unlinkTemp f ∈ (voiceFilesCreated rawP wavP (VoiceOutcome.ok tr)).map _
      exact List.mem_map.mpr ⟨f, hf, rfl⟩
    | failDownload =>
      exact List.mem_cons_of_mem _ (List.mem_map.mpr ⟨f, hf, rfl⟩)
    | failTranscode =>
      exact List.mem_cons_of_mem _ (List.mem_map.mpr ⟨f, hf, rfl⟩)
    | failWhisper =>
      exact List.mem_cons_of_mem _ (List.mem_map.mpr ⟨f, hf, rfl⟩)
  · exact runnerDeliver_no_unlink

/-- Witness for C4's amended theorem at concrete inputs: the downloaded file
is unlinked after a transcode failure, and a concrete runner effect is not
an unlink. -/
theorem temp_audio_cleanup_amended_witness :
    HEff.unlinkTemp "raw" ∈
      (acquireText 5 "raw" "wav" VoiceOutcome.failTranscode ⟨none, true, 42⟩).2 ∧
    (REff.deleteMsg 7).isUnlink = false :=
  ⟨temp_audio_cleanup_amended.1 5 "raw" "wav" VoiceOutcome.failTranscode
      ⟨none, true, 42⟩ rfl (by decide) "raw" (by decide),
    temp_audio_cleanup_amended.2 false false 7 3 [' '] [] "c" (REff.deleteMsg 7)
      (by decide)⟩

/-- C8: the voice-reply merge behaves as specified: zero segments yield no
voice reply and no encode run; one segment is sent unchanged with no
re-encoding; three segments produce exactly one ffmpeg concat invocation
whose `-i` inputs are the segments in their original order (none reordered
or dropped) at the fixed 48000 Hz rate, followed by one voice message with
the combined clip; and if the encode step raises, the error propagates to
the runner's handler (error notice) and no voice message is sent. -/
theorem audio_merge_semantics (a b c combined : String) (rid : Nat) (ef : Bool) :
    voicePart ef [] rid combined = [] ∧
    voicePart ef [a] rid combined = [REff.sendVoice a rid] ∧
    voicePart false [a, b, c] rid combined =
      [REff.runFfmpeg (ffmpegArgs [a, b, c] combined), REff.sendVoice combined rid] ∧
    ffmpegArgs [a, b, c] combined =
      ["ffmpeg", "-y", "-loglevel", "error", "-i", a, "-i", b, "-i", c,
       "-filter_complex", "[0:a][1:a][2:a]concat=n=3:v=0:a=1,aresample=48000",
       "-c:a", "libopus", "-b:a", "48k", combined] ∧
    voicePart true [a, b, c] rid combined =
      [REff.runFfmpeg (ffmpegArgs [a, b, c] combined), REff.errNotice rid] := by
  refine ⟨rfl, rfl, rfl, ?_, rfl⟩
  unfold ffmpegArgs
  rw [show ([a, b, c] : List String).length = 3 from rfl]
  rw [show concatStreams 3 ++ "concat=n=" ++ toString 3 ++ ":v=0:a=1,aresample=48000" =
    "[0:a][1:a][2:a]concat=n=3:v=0:a=1,aresample=48000" by decide]
  simp

/-- C9: on completion with no non-empty answer (empty or whitespace-only),
the only delivery effect is deleting the placeholder: no text message, no
chunk, no pin, and no voice attachment is emitted for that task, whatever
segments were synthesized. -/
theorem empty_result_path (pf ef : Bool) (pid rid : Nat) (final : List Char)
    (oggs : List String) (comb : String) (h : pyStrip final = []) :
    runnerDeliver pf ef pid rid final oggs comb = [REff.deleteMsg pid] := by
  unfold runnerDeliver
  rw [if_pos h]

/-- Witness for C9 at the whitespace-only answer " ". -/
theorem empty_result_path_witness :
    runnerDeliver false false 7 3 [' '] ["a"] "c" = [REff.deleteMsg 7] :=
  empty_result_path false false 7 3 [' '] ["a"] "c" (by decide)

theorem recordStatus_coalesce (minI t : Nat) (stage out : String) (s : RepState)
    (hd : s.disabled = false) (hp : s.pendingFire.isSome = true) :
    recordStatus minI t stage out s =
      { s with history := s.history ++ [statusLine stage out] } := by
  unfold recordStatus
  rw [if_neg (by simp [hd])]
  unfold scheduleEdit
  rw [if_pos (by simp [hp])]

theorem recordMany_coalesce (minI : Nat) (evs : List (Nat × String × String))
    (s : RepState) (hd : s.disabled = false) (hp : s.pendingFire.isSome = true) :
    (recordMany minI evs s).edits = s.edits ∧
    (recordMany minI evs s).pendingFire = s.pendingFire := by
  induction evs generalizing s with
  | nil => exact ⟨rfl, rfl⟩
  | cons ev rest ih =>
    unfold recordMany
    rw [List.foldl_cons]
    rw [recordStatus_coalesce minI ev.1 ev.2.1 ev.2.2 s hd hp]
    exact ih { s with history := s.history ++ [statusLine ev.2.1 ev.2.2] } hd hp

/-- C7: flushes are debounced.  (1) If no deferred flush is pending and the
last flush is at least `min_interval` old, a `record` performs an immediate
edit and leaves nothing pending.  (2) Otherwise exactly one deferred flush
is scheduled at `lastEditAt + min_interval` (the remaining time) and no
edit happens now.  (3) While a deferred flush is pending, any sequence of
further `record` calls performs no edit and does not reschedule — they are
coalesced into the single pending flush.  (4) When the pending flush fires,
exactly one edit (rendering the coalesced last-10 history) happens and the
pending slot clears.  (5) After `stop()`, the pending flush is cancelled
and `record`, the timer callback and `_do_edit` are all no-ops, so no
further edits occur. -/
theorem status_reporter_debounce (minI t : Nat) (stage out : String)
    (evs : List (Nat × String × String)) (s : RepState) :
    (s.disabled = false → s.pendingFire = none → minI ≤ t - s.lastEditAt →
      (recordStatus minI t stage out s).edits =
        s.edits ++ [lastN 10 (s.history ++ [statusLine stage out])] ∧
      (recordStatus minI t stage out s).pendingFire = none ∧
      (recordStatus minI t stage out s).lastEditAt = t) ∧
    (s.disabled = false → s.pendingFire = none → t - s.lastEditAt < minI →
      s.lastEditAt ≤ t →
      (recordStatus minI t stage out s).pendingFire = some (s.lastEditAt + minI) ∧
      (recordStatus minI t stage out s).edits = s.edits) ∧
    (s.disabled = false → s.pendingFire.isSome = true →
      (recordMany minI evs s).edits = s.edits ∧
      (recordMany minI evs s).pendingFire = s.pendingFire) ∧
    (s.disabled = false → s.pendingFire = some t →
      (fireTimer s).edits = s.edits ++ [lastN 10 s.history] ∧
      (fireTimer s).pendingFire = none) ∧
    ((stopStatus s).disabled = true ∧ (stopStatus s).pendingFire = none ∧
      recordStatus minI t stage out (stopStatus s) = stopStatus s ∧
      fireTimer (stopStatus s) = stopStatus s ∧
      doEdit t (stopStatus s) = stopStatus s) := by
  refine ⟨?_, ?_, ?_, ?_, rfl, rfl, ?_, ?_, ?_⟩
  · intro hd hp hle
    have hz : minI - (t - s.lastEditAt) = 0 := Nat.sub_eq_zero_of_le hle
    simp [recordStatus, scheduleEdit, doEdit, hd, hp, hz]
  · intro hd hp hlt hle
    have hz : minI - (t - s.lastEditAt) ≠ 0 := by omega
    simp [recordStatus, scheduleEdit, hd, hp, hz]
    omega
  · intro hd hp
    exact recordMany_coalesce minI evs s hd hp
  · intro hd hp
    unfold fireTimer
    rw [hp]
    simp [doEdit, hd]
  · rfl
  · rfl
  · rfl

/-- Witness for C7 at concrete states: an immediate flush at t = 9 (more
than 5 units after the last flush at 0), a deferred schedule at t = 2 set
for instant 0 + 5, and a pending deferred flush firing at instant 7. -/
theorem status_reporter_debounce_witness :
    (recordStatus 5 9 "a" "b" ⟨[], 0, none, false, []⟩).pendingFire = none ∧
    (recordStatus 5 2 "a" "b" ⟨[], 0, none, false, []⟩).pendingFire = some (0 + 5) ∧
    (fireTimer ⟨[], 0, some 7, false, []⟩).pendingFire = none :=
  ⟨((status_reporter_debounce 5 9 "a" "b" [] ⟨[], 0, none, false, []⟩).1 rfl rfl
      (by norm_num)).2.1,
   ((status_reporter_debounce 5 2 "a" "b" [] ⟨[], 0, none, false, []⟩).2.1 rfl rfl
      (by norm_num) (by norm_num)).1,
   ((status_reporter_debounce 5 7 "a" "b" [] ⟨[], 0, some 7, false, []⟩).2.2.2.1 rfl
      rfl).2⟩

end SapereAude
